import Mathlib

/-!
# Verification of the disaster-news ingestion pipeline

Shallow embedding of the filtering, normalization, deduplication and
merge logic of the `Marpfirst/disaster-news-monitor` repository
(`src/scraper/filters.py`, `src/scraper/config.py`,
`src/scraper/google_news_scraper.py`).

Python strings are modelled as lists of Unicode codepoints (`List Nat`).
Case mapping (`str.lower`, `str.title`, `str.upper`) is modelled on the
ASCII range, which covers every keyword table of the program; the regex
word-character class `\w` and whitespace class `\s` are likewise modelled
on their ASCII parts.  All record collections (pandas dataframes) are
modelled as Lean lists of records, preserving row order.
-/

namespace DisasterMonitor

/-- Codepoints of a string literal: the embedding of a Python `str` value. -/
def str (s : String) : List Nat := s.data.map Char.toNat

/-- ASCII model of Python `str.lower` applied to one codepoint. -/
def pyLower (n : Nat) : Nat := if 65 ≤ n ∧ n ≤ 90 then n + 32 else n

/-- ASCII model of `str.upper` on one codepoint. -/
def toUpperN (n : Nat) : Nat := if 97 ≤ n ∧ n ≤ 122 then n - 32 else n

/-- ASCII decimal digit. -/
def isDigitN (n : Nat) : Bool := decide (48 ≤ n ∧ n ≤ 57)

/-- ASCII letter. -/
def isAlphaN (n : Nat) : Bool := decide ((65 ≤ n ∧ n ≤ 90) ∨ (97 ≤ n ∧ n ≤ 122))

/-- The whitespace class of Python regex `\s`: space, tab, LF, VT, FF, CR. -/
def isSpaceN (n : Nat) : Bool :=
  decide (n = 32 ∨ n = 9 ∨ n = 10 ∨ n = 11 ∨ n = 12 ∨ n = 13)

/-- The regex word-character class `\w` (ASCII part): letters, digits, `_`. -/
def isWordCh (n : Nat) : Bool := isDigitN n || isAlphaN n || decide (n = 95)

/-- Python substring containment `needle in haystack`. -/
def containsSub (needle : List Nat) : List Nat → Bool
  | [] => needle.isEmpty
  | c :: t => needle.isPrefixOf (c :: t) || containsSub needle t

/-- `DISASTER_KEYWORDS` from `src/scraper/config.py`, in declared order. -/
def DISASTER_KEYWORDS : List (List Nat) :=
  [str "bencana alam", str "banjir", str "banjir bandang", str "banjir rob",
   str "gelombang pasang", str "abrasi pantai", str "tanah longsor",
   str "longsor", str "gempa bumi", str "gempa", str "tsunami",
   str "kekeringan", str "kebakaran hutan", str "kebakaran lahan",
   str "kebakaran permukiman", str "kebakaran rumah",
   str "angin puting beliung", str "angin kencang", str "puting beliung",
   str "erupsi gunung api", str "erupsi", str "gunung meletus",
   str "epidemi", str "wabah penyakit", str "keracunan massal",
   str "keracunan", str "kecelakaan kapal", str "kecelakaan laut",
   str "kecelakaan pesawat", str "konflik sosial", str "bentrok warga"]

/-- `NEGATIVE_KEYWORDS` from `src/scraper/config.py`, in declared order. -/
def NEGATIVE_KEYWORDS : List (List Nat) :=
  [str "real madrid", str "barcelona", str "liga", str "serie a",
   str "serie-a", str "premier league", str "bundesliga", str "laliga",
   str "liga champions", str "liga inggris", str "liga spanyol",
   str "como", str "gol", str "pemain", str "pelatih", str "transfer",
   str "musim depan", str "popda", str "porprov", str "juara umum",
   str "turnamen", str "kompetisi", str "kualifikasi",
   str "film", str "trailer", str "serial", str "episode", str "tayang",
   str "premiere", str "festival film", str "series", str "drama korea",
   str "drakor", str "konser", str "artis", str "aktor", str "aktris",
   str "target juara", str "pasang target", str "target capaian",
   str "pilkada", str "pileg", str "pilpres", str "kampanye", str "caleg",
   str "dprd", str "dpr ri", str "menteri", str "presiden", str "pemilu",
   str "pilkada serentak", str "debat capres", str "debat cawapres",
   str "cabul", str "asusila", str "pelecehan", str "cctv di kamar mandi",
   str "proyek turap", str "penopang jalan", str "poros ekonomi",
   str "investasi", str "saham", str "ihsg", str "obligasi", str "inflasi",
   str "bursa", str "pajak", str "ekonomi tumbuh",
   str "judol", str "judi online", str "perjudian", str "narkoba",
   str "bandar narkoba"]

/-- `EPIDEMIC_CONTEXT` from `src/scraper/config.py`, in declared order. -/
def EPIDEMIC_CONTEXT : List (List Nat) :=
  [str "penyakit", str "virus", str "bakteri", str "epidemi", str "endemik",
   str "pandemi", str "flu", str "diare", str "dbd", str "demam berdarah",
   str "covid", str "covid-19", str "hepatitis", str "polio", str "rabies",
   str "infeksi", str "positif", str "kasus", str "pasien",
   str "rumah sakit", str "isolasi", str "karantina", str "vaksin",
   str "imunisasi"]

/-- The epidemic trigger terms hard-coded in `is_disaster_event`. -/
def epidemicTerms : List (List Nat) := [str "wabah", str "epidemi", str "pandemi"]

/-- The lower-cased concatenation `f"{judul} {ringkasan}".lower()` used by
both filters. -/
def filterText (judul ringkasan : List Nat) : List Nat :=
  (judul ++ [32] ++ ringkasan).map pyLower

/-- `DisasterFilter.is_disaster_event` from `src/scraper/filters.py`:
positive keyword required, negative keyword rejects, epidemic terms
require an epidemic-context term. -/
def is_disaster_event (judul ringkasan : List Nat) : Bool :=
  let text := filterText judul ringkasan
  if !(DISASTER_KEYWORDS.any fun kw => containsSub kw text) then false
  else if NEGATIVE_KEYWORDS.any fun neg => containsSub neg text then false
  else if (epidemicTerms.any fun term => containsSub term text) &&
          !(EPIDEMIC_CONTEXT.any fun ctx => containsSub ctx text) then false
  else true

/-- `List.any` is an existential over the list. -/
theorem anyb_iff {α : Type} (p : α → Bool) (l : List α) :
    l.any p = true ↔ ∃ x ∈ l, p x = true := by
  induction l with
  | nil => simp
  | cons a t ih => simp [List.any_cons, ih]

/-- `List.any` returning `false` is a universal over the list. -/
theorem anyb_false_iff {α : Type} (p : α → Bool) (l : List α) :
    l.any p = false ↔ ∀ x ∈ l, p x = false := by
  induction l with
  | nil => simp
  | cons a t ih => simp [List.any_cons, ih]

/-- C2: `is_disaster_event` is the conjunction of a positive-keyword hit, the
absence of negative-keyword hits, and (conditionally on an epidemic trigger)
an epidemic-context hit — the true result in particular implies a positive
hit and no negative hit. -/
theorem is_disaster_event_iff (judul ringkasan : List Nat) :
    is_disaster_event judul ringkasan = true ↔
      ((∃ kw ∈ DISASTER_KEYWORDS,
          containsSub kw (filterText judul ringkasan) = true) ∧
       (∀ neg ∈ NEGATIVE_KEYWORDS,
          containsSub neg (filterText judul ringkasan) = false) ∧
       ((∃ term ∈ epidemicTerms,
           containsSub term (filterText judul ringkasan) = true) →
         ∃ ctx ∈ EPIDEMIC_CONTEXT,
           containsSub ctx (filterText judul ringkasan) = true)) := by
  rw [← anyb_iff, ← anyb_false_iff, ← anyb_iff, ← anyb_iff]
  unfold is_disaster_event
  cases hA : DISASTER_KEYWORDS.any
      fun kw => containsSub kw (filterText judul ringkasan) <;>
    cases hB : NEGATIVE_KEYWORDS.any
        fun neg => containsSub neg (filterText judul ringkasan) <;>
      cases hC : epidemicTerms.any
          fun term => containsSub term (filterText judul ringkasan) <;>
        cases hD : EPIDEMIC_CONTEXT.any
            fun ctx => containsSub ctx (filterText judul ringkasan) <;>
          simp_all

/-! ## Location filter (`LocationFilter` in `src/scraper/filters.py`)

The regex `\b`-boundary semantics: a word boundary sits between two
positions whose word-character status differs (start/end of text count as
non-word). -/

/-- Word-character status of an optional neighbouring codepoint. -/
def wordAt : Option Nat → Bool
  | none => false
  | some c => isWordCh c

/-- Word-character status of the last codepoint of a pattern. -/
def lastIsWord (w : List Nat) : Bool :=
  match w.getLast? with
  | none => false
  | some c => isWordCh c

/-- The regex `\b<w>\b` matches at the current position, where `prev` is the
codepoint just before the position and `rest` the text from the position on. -/
def wordMatchAt (w : List Nat) (prev : Option Nat) (rest : List Nat) : Bool :=
  match w with
  | [] => false
  | c :: _ =>
      (wordAt prev != isWordCh c) && w.isPrefixOf rest &&
        (lastIsWord w != wordAt (rest.drop w.length).head?)

/-- Scan all positions of the text for a `\b<w>\b` match. -/
def wordSearch (w : List Nat) : Option Nat → List Nat → Bool
  | prev, [] => wordMatchAt w prev []
  | prev, c :: t => wordMatchAt w prev (c :: t) || wordSearch w (some c) t

/-- `re.search(r"\b" + re.escape(w) + r"\b", text)` produced a match. -/
def hasWordMatch (w text : List Nat) : Bool := wordSearch w none text

/-- After `"indonesia"` in the `\bdi\s+indonesia\b` pattern: the literal word
followed by a word boundary. -/
def indonesiaTail (rest : List Nat) : Bool :=
  (str "indonesia").isPrefixOf rest && !(wordAt (rest.drop 9).head?)

/-- The `\s+indonesia\b` part: at least one whitespace, then the word. -/
def afterDiSpace : List Nat → Bool
  | [] => false
  | c :: t => isSpaceN c && (indonesiaTail t || afterDiSpace t)

/-- `\bdi\s+indonesia\b` matches at the current position. -/
def diIndonesiaAt (prev : Option Nat) (rest : List Nat) : Bool :=
  !(wordAt prev) &&
    (match rest with
     | 100 :: 105 :: t => afterDiSpace t
     | _ => false)

/-- Scan all positions for `\bdi\s+indonesia\b`. -/
def diIndonesiaSearch : Option Nat → List Nat → Bool
  | _, [] => false
  | prev, c :: t => diIndonesiaAt prev (c :: t) || diIndonesiaSearch (some c) t

/-- `re.search(r"\bdi\s+indonesia\b", text)` produced a match. -/
def hasDiIndonesia (text : List Nat) : Bool := diIndonesiaSearch none text

/-- ASCII model of Python `str.title`: upper-case a letter not preceded by a
letter, lower-case the rest. -/
def titleGo : Bool → List Nat → List Nat
  | _, [] => []
  | prevAlpha, c :: t =>
      (if isAlphaN c then (if prevAlpha then pyLower c else toUpperN c) else c)
        :: titleGo (isAlphaN c) t

/-- `lokasi.title()`. -/
def titleCase (l : List Nat) : List Nat := titleGo false l

/-- Stable insertion of an entry into a length-descending sorted list: the
model of Python `sorted(key=len, reverse=True)`, which is stable. -/
def insertLen (a : List Nat) : List (List Nat) → List (List Nat)
  | [] => [a]
  | b :: t => if b.length ≤ a.length then a :: b :: t else b :: insertLen a t

/-- `sorted(self.lokasi_keywords, key=len, reverse=True)`. -/
def sortLenDesc : List (List Nat) → List (List Nat)
  | [] => []
  | a :: t => insertLen a (sortLenDesc t)

/-- The fallback gazetteer hard-coded in `LocationFilter._load_lokasi_keywords`
(used when `config/lokasi_indonesia.json` is absent). -/
def lokasi_fallback : List (List Nat) :=
  [str "indonesia", str "jakarta", str "jawa", str "sumatera",
   str "kalimantan", str "sulawesi", str "papua", str "bali", str "ntt",
   str "ntb", str "maluku"]

/-- The scan loop of `extract_location`: walk the (already sorted) entries,
skip the entry `"indonesia"`, return the title-cased first match. -/
def scanLokasi : List (List Nat) → List Nat → List Nat
  | [], _ => []
  | l :: rest, text =>
      if l = str "indonesia" then scanLokasi rest text
      else if hasWordMatch l text then titleCase l
      else scanLokasi rest text

/-- `LocationFilter.extract_location`, parametric in the loaded gazetteer
`lokasi` (JSON file, or the fallback list). -/
def extract_location (lokasi : List (List Nat)) (judul ringkasan : List Nat) :
    List Nat :=
  if hasDiIndonesia (filterText judul ringkasan) then str "Indonesia"
  else scanLokasi (sortLenDesc lokasi) (filterText judul ringkasan)

/-- `LocationFilter.is_in_indonesia`: `bool(self.extract_location(...))`. -/
def is_in_indonesia (lokasi : List (List Nat)) (judul ringkasan : List Nat) :
    Bool :=
  !(extract_location lokasi judul ringkasan).isEmpty

/-! ### Lemmas about the location scan -/

/-- An empty pattern never produces a `\b`-delimited match. -/
theorem wordSearch_nil (prev : Option Nat) (l : List Nat) :
    wordSearch [] prev l = false := by
  induction l generalizing prev with
  | nil => rfl
  | cons c t ih => simp [wordSearch, wordMatchAt, ih]

/-- Title-casing preserves length. -/
theorem titleGo_length (b : Bool) (l : List Nat) :
    (titleGo b l).length = l.length := by
  induction l generalizing b with
  | nil => rfl
  | cons c t ih => simp [titleGo, ih]

/-- Membership in a stable insertion. -/
theorem mem_insertLen {x a : List Nat} {l : List (List Nat)} :
    x ∈ insertLen a l ↔ x = a ∨ x ∈ l := by
  induction l with
  | nil => simp [insertLen]
  | cons b t ih =>
      unfold insertLen
      split
      · simp
      · simp only [List.mem_cons, ih]
        tauto

/-- Sorting by length keeps exactly the original entries. -/
theorem mem_sortLenDesc {x : List Nat} {l : List (List Nat)} :
    x ∈ sortLenDesc l ↔ x ∈ l := by
  induction l with
  | nil => simp [sortLenDesc]
  | cons b t ih => simp [sortLenDesc, mem_insertLen, ih]

/-- Insertion keeps the list sorted by descending length. -/
theorem sorted_insertLen (a : List Nat) (l : List (List Nat))
    (h : l.Pairwise fun x y => y.length ≤ x.length) :
    (insertLen a l).Pairwise fun x y => y.length ≤ x.length := by
  induction l with
  | nil => simp [insertLen]
  | cons b t ih =>
      rw [List.pairwise_cons] at h
      unfold insertLen
      split
      · rename_i hle
        rw [List.pairwise_cons]
        refine ⟨?_, List.pairwise_cons.2 h⟩
        intro y hy
        rcases List.mem_cons.1 hy with rfl | hyt
        · exact hle
        · exact le_trans (h.1 y hyt) hle
      · rename_i hgt
        rw [List.pairwise_cons]
        refine ⟨?_, ih h.2⟩
        intro y hy
        rcases mem_insertLen.1 hy with rfl | hyt
        · omega
        · exact h.1 y hyt

/-- `sortLenDesc` sorts by descending length. -/
theorem sorted_sortLenDesc (l : List (List Nat)) :
    (sortLenDesc l).Pairwise fun x y => y.length ≤ x.length := by
  induction l with
  | nil => simp [sortLenDesc]
  | cons b t ih => exact sorted_insertLen b _ ih

/-- Complete case analysis of the `extract_location` scan loop over a
length-descending entry list: either no entry other than `"indonesia"`
matches and the scan yields the empty string, or the scan yields the
title-cased form of a matching entry of maximal length. -/
theorem scanLokasi_cases (ls : List (List Nat)) (text : List Nat)
    (hs : ls.Pairwise fun x y => y.length ≤ x.length) :
    (scanLokasi ls text = [] ∧
       ∀ l ∈ ls, l ≠ str "indonesia" → hasWordMatch l text = false) ∨
    (∃ l ∈ ls, l ≠ str "indonesia" ∧ hasWordMatch l text = true ∧
       scanLokasi ls text = titleCase l ∧
       ∀ l2 ∈ ls, l2 ≠ str "indonesia" → hasWordMatch l2 text = true →
         l2.length ≤ l.length) := by
  induction ls with
  | nil => left; exact ⟨rfl, by simp⟩
  | cons b t ih =>
      rw [List.pairwise_cons] at hs
      unfold scanLokasi
      split
      · rename_i hb
        subst hb
        rcases ih hs.2 with ⟨hempty, hfail⟩ | ⟨l, hl, hne, hm, heq, hmax⟩
        · left
          refine ⟨hempty, ?_⟩
          intro l hl hne
          rcases List.mem_cons.1 hl with rfl | hlt
          · exact absurd rfl hne
          · exact hfail l hlt hne
        · right
          refine ⟨l, List.mem_cons_of_mem _ hl, hne, hm, heq, ?_⟩
          intro l2 hl2 hne2 hm2
          rcases List.mem_cons.1 hl2 with rfl | hl2t
          · exact absurd rfl hne2
          · exact hmax l2 hl2t hne2 hm2
      · rename_i hb
        split
        · rename_i hm
          right
          refine ⟨b, List.mem_cons_self b t, hb, hm, rfl, ?_⟩
          intro l2 hl2 _ _
          rcases List.mem_cons.1 hl2 with rfl | hl2t
          · exact le_refl _
          · exact hs.1 l2 hl2t
        · rename_i hm
          rw [Bool.not_eq_true] at hm
          rcases ih hs.2 with ⟨hempty, hfail⟩ | ⟨l, hl, hne, hmm, heq, hmax⟩
          · left
            refine ⟨hempty, ?_⟩
            intro l hl hne
            rcases List.mem_cons.1 hl with rfl | hlt
            · exact hm
            · exact hfail l hlt hne
          · right
            refine ⟨l, List.mem_cons_of_mem _ hl, hne, hmm, heq, ?_⟩
            intro l2 hl2 hne2 hm2
            rcases List.mem_cons.1 hl2 with rfl | hl2t
            · rw [hm] at hm2; exact absurd hm2 (by simp)
            · exact hmax l2 hl2t hne2 hm2

/-- A matching entry is a non-empty list. -/
theorem ne_nil_of_hasWordMatch {l text : List Nat}
    (h : hasWordMatch l text = true) : l ≠ [] := by
  intro h0
  rw [h0, show hasWordMatch [] text = false from wordSearch_nil none _] at h
  exact absurd h (by simp)

/-- Title-casing a non-empty entry is non-empty. -/
theorem titleCase_ne_nil {l : List Nat} (h : l ≠ []) : titleCase l ≠ [] := by
  intro hc
  have hlen : (titleCase l).length = l.length := titleGo_length false l
  rw [hc] at hlen
  exact h (List.length_eq_zero.1 hlen.symm)

/-- Complete case analysis of `extract_location`: a phrase match yields
`"Indonesia"`; otherwise either no entry other than `"indonesia"` matches
and the result is empty, or the result is the title-cased form of a
longest matching entry other than `"indonesia"`. -/
theorem extract_location_cases (lokasi : List (List Nat))
    (judul ringkasan : List Nat) :
    (hasDiIndonesia (filterText judul ringkasan) = true ∧
       extract_location lokasi judul ringkasan = str "Indonesia") ∨
    (hasDiIndonesia (filterText judul ringkasan) = false ∧
       extract_location lokasi judul ringkasan = [] ∧
       ∀ l ∈ lokasi, l ≠ str "indonesia" →
         hasWordMatch l (filterText judul ringkasan) = false) ∨
    (hasDiIndonesia (filterText judul ringkasan) = false ∧
       ∃ l ∈ lokasi, l ≠ str "indonesia" ∧
         hasWordMatch l (filterText judul ringkasan) = true ∧
         extract_location lokasi judul ringkasan = titleCase l ∧
         titleCase l ≠ [] ∧
         ∀ l2 ∈ lokasi, l2 ≠ str "indonesia" →
           hasWordMatch l2 (filterText judul ringkasan) = true →
           l2.length ≤ l.length) := by
  cases hDi : hasDiIndonesia (filterText judul ringkasan)
  · rcases scanLokasi_cases (sortLenDesc lokasi) (filterText judul ringkasan)
        (sorted_sortLenDesc lokasi) with ⟨hempty, hfail⟩ |
          ⟨l0, hl0, hne0, hm0, heq0, hmax0⟩
    · refine Or.inr (Or.inl ⟨rfl, ?_, ?_⟩)
      · unfold extract_location
        rw [hDi]
        simpa using hempty
      · intro l hl hne
        exact hfail l (mem_sortLenDesc.2 hl) hne
    · refine Or.inr (Or.inr ⟨rfl, l0, mem_sortLenDesc.1 hl0, hne0, hm0,
        ?_, titleCase_ne_nil (ne_nil_of_hasWordMatch hm0), ?_⟩)
      · unfold extract_location
        rw [hDi]
        simpa using heq0
      · intro l2 hl2 hne2 hm2
        exact hmax0 l2 (mem_sortLenDesc.2 hl2) hne2 hm2
  · refine Or.inl ⟨rfl, ?_⟩
    unfold extract_location
    rw [hDi]
    simp

/-- C4 (amended): `extract_location` returns `"Indonesia"` on a
`di indonesia` phrase match; otherwise, if it returns a non-empty string,
that string is the title-cased form of a matching gazetteer entry other than
`"indonesia"` whose length is maximal among all matching entries other than
`"indonesia"`; and if it returns the empty string, no entry other than
`"indonesia"` matches. -/
theorem extract_location_spec (lokasi : List (List Nat))
    (judul ringkasan : List Nat) :
    (hasDiIndonesia (filterText judul ringkasan) = true →
       extract_location lokasi judul ringkasan = str "Indonesia") ∧
    (hasDiIndonesia (filterText judul ringkasan) = false →
       extract_location lokasi judul ringkasan = [] →
       ∀ l ∈ lokasi, l ≠ str "indonesia" →
         hasWordMatch l (filterText judul ringkasan) = false) ∧
    (hasDiIndonesia (filterText judul ringkasan) = false →
       extract_location lokasi judul ringkasan ≠ [] →
       ∃ l ∈ lokasi, l ≠ str "indonesia" ∧
         hasWordMatch l (filterText judul ringkasan) = true ∧
         extract_location lokasi judul ringkasan = titleCase l ∧
         ∀ l2 ∈ lokasi, l2 ≠ str "indonesia" →
           hasWordMatch l2 (filterText judul ringkasan) = true →
           l2.length ≤ l.length) := by
  rcases extract_location_cases lokasi judul ringkasan with
    ⟨hDi, heq⟩ | ⟨hDi, hempty, hfail⟩ |
      ⟨hDi, l0, hl0, hne0, hm0, heq0, hnn0, hmax0⟩
  · refine ⟨fun _ => heq, fun h => ?_, fun h => ?_⟩ <;>
      (rw [hDi] at h; exact absurd h (by simp))
  · refine ⟨fun h => ?_, fun _ _ => hfail, fun _ hne => absurd hempty hne⟩
    rw [hDi] at h
    exact absurd h (by simp)
  · refine ⟨fun h => ?_, fun _ hempty => ?_, fun _ _ => ?_⟩
    · rw [hDi] at h
      exact absurd h (by simp)
    · rw [heq0] at hempty
      exact absurd hempty hnn0
    · exact ⟨l0, hl0, hne0, hm0, heq0, hmax0⟩

/-- Witness for `extract_location_spec`: on a gazetteer with the overlapping
entries `jawa` and `jawa barat`, text mentioning `jawa barat` yields the
longer entry, title-cased. -/
theorem extract_location_spec_witness :
    ∃ l ∈ [str "jawa", str "jawa barat"], l ≠ str "indonesia" ∧
      hasWordMatch l (filterText (str "banjir melanda jawa barat") (str "")) =
        true ∧
      extract_location [str "jawa", str "jawa barat"]
          (str "banjir melanda jawa barat") (str "") = titleCase l ∧
      ∀ l2 ∈ [str "jawa", str "jawa barat"], l2 ≠ str "indonesia" →
        hasWordMatch l2 (filterText (str "banjir melanda jawa barat")
          (str "")) = true →
        l2.length ≤ l.length :=
  (extract_location_spec [str "jawa", str "jawa barat"]
    (str "banjir melanda jawa barat") (str "")).2.2 (by decide) (by decide)

/-- Counterexample to C4 as stated: in text `kawasan indonesia`, the entry
`"indonesia"` of the fallback gazetteer is the unique (hence longest)
whole-word match and the phrase `di indonesia` does not occur, yet
`extract_location` returns the empty string rather than the title-cased
entry, because the scan loop skips that entry. -/
theorem extract_location_cex :
    hasDiIndonesia (filterText (str "kawasan indonesia") (str "")) = false ∧
    str "indonesia" ∈ lokasi_fallback ∧
    hasWordMatch (str "indonesia")
      (filterText (str "kawasan indonesia") (str "")) = true ∧
    (∀ l ∈ lokasi_fallback,
       hasWordMatch l (filterText (str "kawasan indonesia") (str "")) = true →
       l = str "indonesia") ∧
    extract_location lokasi_fallback (str "kawasan indonesia") (str "") =
      [] := by decide

/-- C3 (amended): the location gate holds iff the text matches the phrase
`di indonesia` or some gazetteer entry other than `"indonesia"` as a whole
word. -/
theorem is_in_indonesia_iff (lokasi : List (List Nat))
    (judul ringkasan : List Nat) :
    is_in_indonesia lokasi judul ringkasan = true ↔
      (hasDiIndonesia (filterText judul ringkasan) = true ∨
        ∃ l ∈ lokasi, l ≠ str "indonesia" ∧
          hasWordMatch l (filterText judul ringkasan) = true) := by
  unfold is_in_indonesia
  rcases extract_location_cases lokasi judul ringkasan with
    ⟨hDi, heq⟩ | ⟨hDi, hempty, hfail⟩ |
      ⟨hDi, l0, hl0, hne0, hm0, heq0, hnn0, _⟩
  · rw [heq, hDi]
    constructor
    · intro _
      exact Or.inl rfl
    · intro _
      decide
  · rw [hempty, hDi]
    constructor
    · intro h
      exact absurd h (by decide)
    · rintro (h | ⟨l, hl, hne, hm⟩)
      · exact absurd h (by simp)
      · rw [hfail l hl hne] at hm
        exact absurd hm (by simp)
  · rw [heq0, hDi]
    constructor
    · intro _
      exact Or.inr ⟨l0, hl0, hne0, hm0⟩
    · intro _
      cases h : titleCase l0 with
      | nil => exact absurd h hnn0
      | cons a t => simp [h]

/-- Counterexample to C3 as stated: the text `indonesia` matches the
gazetteer entry `"indonesia"` as a whole word, yet `is_in_indonesia` is
false, because the scan loop skips that entry and no `di indonesia` phrase
occurs. -/
theorem is_in_indonesia_cex :
    str "indonesia" ∈ lokasi_fallback ∧
    hasWordMatch (str "indonesia")
      (filterText (str "indonesia") (str "")) = true ∧
    is_in_indonesia lokasi_fallback (str "indonesia") (str "") = false := by
  decide

/-- C10: the location gate is definitionally the non-emptiness of the
extracted location. -/
theorem is_in_indonesia_eq_extract_nonempty (lokasi : List (List Nat))
    (judul ringkasan : List Nat) :
    is_in_indonesia lokasi judul ringkasan = true ↔
      extract_location lokasi judul ringkasan ≠ [] := by
  unfold is_in_indonesia
  cases h : extract_location lokasi judul ringkasan <;> simp [h]

/-! ## Text normalizer (`TextNormalizer` in `src/scraper/filters.py`) -/

/-- Python `domain.replace("www.", "")`: remove every non-overlapping
occurrence of `www.`, scanning left to right; after a removal the scan
resumes after the removed characters (`skip` counts characters still to be
skipped). -/
def removeWWWGo : Nat → List Nat → List Nat
  | _, [] => []
  | skip + 1, _ :: t => removeWWWGo skip t
  | 0, c :: t =>
      if (str "www.").isPrefixOf (c :: t) then removeWWWGo 3 t
      else c :: removeWWWGo 0 t

/-- `domain.replace("www.", "")`. -/
def removeWWW (domain : List Nat) : List Nat := removeWWWGo 0 domain

/-- `TextNormalizer.clean_domain`: `"unknown"` on falsy input, otherwise
`domain.replace("www.", "").lower()` — the replace runs before the
lower-casing and is case-sensitive. -/
def clean_domain (domain : List Nat) : List Nat :=
  if domain = [] then str "unknown" else (removeWWW domain).map pyLower

/-- If `www.` does not occur in `d`, the replace leaves `d` unchanged. -/
theorem removeWWW_eq_self {d : List Nat}
    (h : containsSub (str "www.") d = false) : removeWWW d = d := by
  unfold removeWWW
  induction d with
  | nil => rfl
  | cons c t ih =>
      unfold containsSub at h
      rw [Bool.or_eq_false_iff] at h
      unfold removeWWWGo
      simp only [h.1, Bool.false_eq_true, if_false]
      rw [ih h.2]

/-- A leading `www.` is removed and the scan continues on the remainder. -/
theorem removeWWW_www_append (d : List Nat) :
    removeWWW (str "www." ++ d) = removeWWW d := by
  have h : str "www." = [119, 119, 119, 46] := by decide
  rw [show str "www." ++ d = 119 :: 119 :: 119 :: 46 :: d by rw [h]; rfl]
  show (if (str "www.").isPrefixOf (119 :: 119 :: 119 :: 46 :: d) then
          removeWWWGo 3 (119 :: 119 :: 46 :: d)
        else 119 :: removeWWWGo 0 (119 :: 119 :: 46 :: d)) = removeWWWGo 0 d
  rw [if_pos]
  · rfl
  · rw [h]
    simp [List.isPrefixOf]

/-- C5 (amended): `clean_domain` yields the sentinel `"unknown"` on empty
input; on non-empty input it removes every occurrence of the exact
(lower-case) substring `www.` — not only a leading one — and then
lower-cases the result; the removal happens before lower-casing, so it is
case-sensitive. In particular an input without `www.` is just lower-cased
and a leading `www.` prefix is stripped. -/
theorem clean_domain_spec (d : List Nat) :
    clean_domain [] = str "unknown" ∧
    (d ≠ [] → containsSub (str "www.") d = false →
       clean_domain d = d.map pyLower) ∧
    clean_domain (str "www." ++ d) = (removeWWW d).map pyLower ∧
    (d ≠ [] → clean_domain d = (removeWWW d).map pyLower) := by
  refine ⟨by simp [clean_domain], ?_, ?_, ?_⟩
  · intro hne hnc
    unfold clean_domain
    rw [if_neg hne, removeWWW_eq_self hnc]
  · have hne : str "www." ++ d ≠ [] := by
      have h : str "www." = [119, 119, 119, 46] := by decide
      rw [h]
      simp
    unfold clean_domain
    rw [if_neg hne, removeWWW_www_append]
  · intro hne
    unfold clean_domain
    rw [if_neg hne]

/-- Witness for `clean_domain_spec`: a domain without `www.` is lower-cased
unchanged. -/
theorem clean_domain_spec_witness :
    clean_domain (str "Kompas.com") = (str "Kompas.com").map pyLower :=
  (clean_domain_spec (str "Kompas.com")).2.1 (by decide) (by decide)

/-- Counterexample to C5 as stated: an upper-case `WWW.` prefix survives
(stripping is not case-insensitive, because the replace runs before the
lower-casing), and a non-leading `www.` occurrence is removed (not only a
leading one). -/
theorem clean_domain_cex :
    clean_domain (str "WWW.Kompas.com") = str "www.kompas.com" ∧
    str "www.kompas.com" ≠ str "kompas.com" ∧
    clean_domain (str "news.www.kompas.com") = str "news.kompas.com" ∧
    str "news.kompas.com" ≠ str "news.www.kompas.com" := by decide

/-- The character class kept by the first substitution of `normalize_title`
(`[^0-9a-zA-ZÀ-ɏḀ-ỿ\s]` is replaced by a space):
ASCII alphanumerics, U+00C0–U+024F, U+1E00–U+1EFF, and whitespace. -/
def keepCh (n : Nat) : Bool :=
  isDigitN n || isAlphaN n ||
    decide ((0xC0 ≤ n ∧ n ≤ 0x24F) ∨ (0x1E00 ≤ n ∧ n ≤ 0x1EFF)) || isSpaceN n

/-- `re.sub(r"\s+", " ", t)`: collapse every whitespace run to one space
(`prevSpace` records whether the previous input character was whitespace). -/
def collapseWS : Bool → List Nat → List Nat
  | _, [] => []
  | prevSpace, c :: t =>
      if isSpaceN c then
        (if prevSpace then collapseWS true t else 32 :: collapseWS true t)
      else c :: collapseWS false t

/-- Python `str.strip` (whitespace model as in `isSpaceN`). -/
def stripWS (l : List Nat) : List Nat :=
  ((l.dropWhile isSpaceN).reverse.dropWhile isSpaceN).reverse

/-- `TextNormalizer.normalize_title` on a string input: lower-case, replace
non-kept characters by spaces, collapse whitespace runs, strip. -/
def normalize_title (title : List Nat) : List Nat :=
  stripWS (collapseWS false
    ((title.map pyLower).map fun c => if keepCh c then c else 32))

/-- `normalize_title` including the `isinstance` guard: `none` models a
non-string input, which yields the empty string. -/
def normalize_title_any : Option (List Nat) → List Nat
  | none => []
  | some t => normalize_title t

/-- The Unicode letters among the codepoints `normalize_title` can keep:
ASCII letters, and the two kept ranges minus the two non-letter signs
× (U+00D7) and ÷ (U+00F7); every codepoint of U+1E00–U+1EFF is a letter. -/
def isLetterCp (n : Nat) : Bool :=
  isAlphaN n ||
    decide ((0xC0 ≤ n ∧ n ≤ 0x24F ∧ n ≠ 0xD7 ∧ n ≠ 0xF7) ∨
            (0x1E00 ≤ n ∧ n ≤ 0x1EFF))

/-! ### Lemmas about the normalizer -/

/-- `str.lower` never produces an ASCII capital. -/
theorem pyLower_not_upper (n : Nat) : ¬(65 ≤ pyLower n ∧ pyLower n ≤ 90) := by
  unfold pyLower
  split <;> omega

/-- A kept non-whitespace codepoint is a letter, a digit, or one of the two
non-letter signs inside the kept ranges. -/
theorem keepCh_classify {c : Nat} (hk : keepCh c = true)
    (hs : isSpaceN c = false) :
    isLetterCp c = true ∨ isDigitN c = true ∨ c = 0xD7 ∨ c = 0xF7 := by
  unfold keepCh isLetterCp isSpaceN isDigitN isAlphaN at *
  simp only [Bool.or_eq_true, decide_eq_true_eq, Bool.or_eq_false_iff,
    decide_eq_false_iff_not] at *
  omega

/-- Every character emitted by the whitespace collapse is a space or a
non-whitespace character of the input. -/
theorem mem_collapseWS :
    ∀ (l : List Nat) (b : Bool) (c : Nat), c ∈ collapseWS b l →
      c = 32 ∨ (c ∈ l ∧ isSpaceN c = false) := by
  intro l
  induction l with
  | nil =>
      intro b c h
      simp [collapseWS] at h
  | cons d t ih =>
      intro b c h
      unfold collapseWS at h
      split at h
      · cases b with
        | true =>
            simp only [if_true] at h
            rcases ih true c h with h1 | ⟨h2, h3⟩
            · exact Or.inl h1
            · exact Or.inr ⟨List.mem_cons_of_mem _ h2, h3⟩
        | false =>
            simp only [Bool.false_eq_true, if_false] at h
            rcases List.mem_cons.1 h with rfl | h4
            · exact Or.inl rfl
            · rcases ih true c h4 with h1 | ⟨h2, h3⟩
              · exact Or.inl h1
              · exact Or.inr ⟨List.mem_cons_of_mem _ h2, h3⟩
      · rename_i hd
        rcases List.mem_cons.1 h with rfl | h4
        · exact Or.inr ⟨List.mem_cons_self _ _, by simpa using hd⟩
        · rcases ih false c h4 with h1 | ⟨h2, h3⟩
          · exact Or.inl h1
          · exact Or.inr ⟨List.mem_cons_of_mem _ h2, h3⟩

/-- After the collapse has just emitted a space, the next emitted character
is not a space. -/
theorem collapseWS_true_cons :
    ∀ (l : List Nat) (c : Nat) (t : List Nat),
      collapseWS true l = c :: t → isSpaceN c = false := by
  intro l
  induction l with
  | nil =>
      intro c t h
      exact absurd h (by simp [collapseWS])
  | cons d r ih =>
      intro c t h
      unfold collapseWS at h
      split at h
      · simp only [if_true] at h
        exact ih c t h
      · rename_i hd
        injection h with h1 _
        rw [← h1]
        simpa using hd

/-- The collapsed text never contains two adjacent spaces. -/
theorem collapseWS_nodbl :
    ∀ (l : List Nat) (b : Bool),
      containsSub [32, 32] (collapseWS b l) = false := by
  intro l
  induction l with
  | nil =>
      intro b
      simp [collapseWS, containsSub]
  | cons d r ih =>
      intro b
      unfold collapseWS
      split
      · cases b with
        | true =>
            simp only [if_true]
            exact ih true
        | false =>
            simp only [Bool.false_eq_true, if_false]
            unfold containsSub
            rw [Bool.or_eq_false_iff]
            refine ⟨?_, ih true⟩
            cases hrec : collapseWS true r with
            | nil => simp [List.isPrefixOf]
            | cons e t2 =>
                have he : isSpaceN e = false := collapseWS_true_cons r e t2 hrec
                have hne : ¬(32 = e) := by
                  intro h32
                  rw [← h32] at he
                  simp [isSpaceN] at he
                simp [List.isPrefixOf, hne]
      · rename_i hd
        unfold containsSub
        rw [Bool.or_eq_false_iff]
        refine ⟨?_, ih false⟩
        have hne : ¬(32 = d) := by
          intro h32
          rw [← h32] at hd
          simp [isSpaceN] at hd
        simp [List.isPrefixOf, hne]

/-- An empty needle is contained in every haystack. -/
theorem containsSub_nil_needle (l : List Nat) : containsSub [] l = true := by
  cases l <;> simp [containsSub, List.isPrefixOf]

/-- A prefix stays a prefix when the haystack is extended on the right. -/
theorem isPrefixOf_append_right {n l : List Nat} (y : List Nat)
    (h : n.isPrefixOf l = true) : n.isPrefixOf (l ++ y) = true := by
  induction n generalizing l with
  | nil => simp [List.isPrefixOf]
  | cons a as ih =>
      cases l with
      | nil => exact absurd h (by simp [List.isPrefixOf])
      | cons b bs =>
          simp only [List.cons_append, List.isPrefixOf, Bool.and_eq_true,
            beq_iff_eq] at h ⊢
          exact ⟨h.1, ih h.2⟩

/-- Containment is preserved when the haystack is extended on the right. -/
theorem containsSub_append_right {n l : List Nat} (y : List Nat)
    (h : containsSub n l = true) : containsSub n (l ++ y) = true := by
  induction l with
  | nil =>
      have hn : n = [] := by
        cases n with
        | nil => rfl
        | cons a as => simp [containsSub] at h
      rw [hn]
      exact containsSub_nil_needle _
  | cons c t ih =>
      unfold containsSub at h
      rw [Bool.or_eq_true] at h
      show containsSub n (c :: (t ++ y)) = true
      unfold containsSub
      rw [Bool.or_eq_true]
      rcases h with h | h
      · exact Or.inl (isPrefixOf_append_right y h)
      · exact Or.inr (ih h)

/-- Containment is preserved when the haystack is extended on the left. -/
theorem containsSub_append_left {n l : List Nat} (x : List Nat)
    (h : containsSub n l = true) : containsSub n (x ++ l) = true := by
  induction x with
  | nil => exact h
  | cons a xs ih =>
      show containsSub n (a :: (xs ++ l)) = true
      unfold containsSub
      rw [Bool.or_eq_true]
      exact Or.inr ih

/-- A needle absent from a list is absent from any contiguous slice of it. -/
theorem containsSub_of_middle_false {n pre m post : List Nat}
    (h : containsSub n (pre ++ m ++ post) = false) :
    containsSub n m = false := by
  by_contra hc
  rw [Bool.not_eq_false] at hc
  have h2 := containsSub_append_left pre (containsSub_append_right post hc)
  rw [← List.append_assoc] at h2
  rw [h2] at h
  exact absurd h (by simp)

/-- The right-trimmed remainder of `dropWhile`: `stripWS` plus trailing
whitespace. -/
theorem dropWhile_eq_strip_append (l : List Nat) :
    l.dropWhile isSpaceN =
      stripWS l ++ ((l.dropWhile isSpaceN).reverse.takeWhile isSpaceN).reverse := by
  have h2 : (l.dropWhile isSpaceN).reverse =
      (l.dropWhile isSpaceN).reverse.takeWhile isSpaceN ++
        (l.dropWhile isSpaceN).reverse.dropWhile isSpaceN :=
    (List.takeWhile_append_dropWhile _ _).symm
  have h3 := congrArg List.reverse h2
  rw [List.reverse_reverse, List.reverse_append] at h3
  exact h3

/-- Every list is leading whitespace, then its strip, then trailing
whitespace. -/
theorem stripWS_middle (l : List Nat) :
    l = l.takeWhile isSpaceN ++ stripWS l ++
        ((l.dropWhile isSpaceN).reverse.takeWhile isSpaceN).reverse := by
  conv_lhs => rw [← List.takeWhile_append_dropWhile (p := isSpaceN) (l := l),
    dropWhile_eq_strip_append l]
  rw [List.append_assoc]

/-- Characters of the strip are characters of the list. -/
theorem mem_stripWS {c : Nat} {l : List Nat} (h : c ∈ stripWS l) : c ∈ l := by
  rw [stripWS_middle l]
  exact List.mem_append.2 (Or.inl (List.mem_append.2 (Or.inr h)))

/-- The head of a `dropWhile` fails the dropped predicate. -/
theorem dropWhile_cons_not {p : Nat → Bool} :
    ∀ (l : List Nat) (c : Nat) (t : List Nat),
      l.dropWhile p = c :: t → p c = false := by
  intro l
  induction l with
  | nil =>
      intro c t h
      exact absurd h (by simp)
  | cons a r ih =>
      intro c t h
      rw [List.dropWhile_cons] at h
      split at h
      · exact ih c t h
      · rename_i ha
        injection h with h1 _
        rw [← h1]
        simpa using ha

/-- C7 (amended): `normalize_title` yields only letters, digits, the space
character, and the two non-letter signs × (U+00D7) and ÷ (U+00F7) that lie
inside the kept range U+00C0–U+024F; it never contains two adjacent
spaces, never starts or ends with whitespace, contains no ASCII capital,
and maps empty and non-string input to the empty string. -/
theorem normalize_title_spec (t : List Nat) :
    (∀ c ∈ normalize_title t,
       isLetterCp c = true ∨ isDigitN c = true ∨ c = 32 ∨ c = 0xD7 ∨
         c = 0xF7) ∧
    containsSub [32, 32] (normalize_title t) = false ∧
    (∀ c, (normalize_title t).head? = some c → isSpaceN c = false) ∧
    (∀ c, (normalize_title t).getLast? = some c → isSpaceN c = false) ∧
    (∀ c ∈ normalize_title t, ¬(65 ≤ c ∧ c ≤ 90)) ∧
    normalize_title [] = [] ∧ normalize_title_any none = [] := by
  have hmemT2 : ∀ c ∈ normalize_title t,
      c = 32 ∨ (keepCh c = true ∧ isSpaceN c = false ∧
        ¬(65 ≤ c ∧ c ≤ 90)) := by
    intro c hc
    have hw : c ∈ collapseWS false
        ((t.map pyLower).map fun d => if keepCh d then d else 32) :=
      mem_stripWS hc
    rcases mem_collapseWS _ false c hw with h32 | ⟨ht2, hs⟩
    · exact Or.inl h32
    · obtain ⟨a, ha, rfl⟩ := List.mem_map.1 ht2
      obtain ⟨b, _, rfl⟩ := List.mem_map.1 ha
      by_cases hk : keepCh (pyLower b) = true
      · rw [if_pos hk] at hs ⊢
        exact Or.inr ⟨hk, hs, pyLower_not_upper b⟩
      · rw [if_neg hk]
        exact Or.inl rfl
  refine ⟨?_, ?_, ?_, ?_, ?_, rfl, rfl⟩
  · intro c hc
    rcases hmemT2 c hc with rfl | ⟨hk, hs, _⟩
    · exact Or.inr (Or.inr (Or.inl rfl))
    · rcases keepCh_classify hk hs with h | h | h | h
      · exact Or.inl h
      · exact Or.inr (Or.inl h)
      · exact Or.inr (Or.inr (Or.inr (Or.inl h)))
      · exact Or.inr (Or.inr (Or.inr (Or.inr h)))
  · have hw := collapseWS_nodbl
      ((t.map pyLower).map fun d => if keepCh d then d else 32) false
    rw [stripWS_middle (collapseWS false
      ((t.map pyLower).map fun d => if keepCh d then d else 32))] at hw
    exact containsSub_of_middle_false hw
  · intro c hc
    unfold normalize_title at hc
    cases hsw : normalize_title t with
    | nil =>
        unfold normalize_title at hsw
        rw [hsw] at hc
        simp at hc
    | cons e rest =>
        unfold normalize_title at hsw
        rw [hsw] at hc
        simp only [List.head?_cons, Option.some.injEq] at hc
        subst hc
        have hdw := dropWhile_eq_strip_append (collapseWS false
          ((t.map pyLower).map fun d => if keepCh d then d else 32))
        rw [hsw] at hdw
        exact dropWhile_cons_not _ _ _
          (by rw [hdw]; rfl)
  · intro c hc
    have hrev : (normalize_title t).reverse =
        ((collapseWS false ((t.map pyLower).map fun d =>
          if keepCh d then d else 32)).dropWhile isSpaceN).reverse.dropWhile
            isSpaceN := by
      unfold normalize_title stripWS
      rw [List.reverse_reverse]
    rw [← List.head?_reverse, hrev] at hc
    cases hdr : ((collapseWS false ((t.map pyLower).map fun d =>
        if keepCh d then d else 32)).dropWhile isSpaceN).reverse.dropWhile
          isSpaceN with
    | nil =>
        rw [hdr] at hc
        simp at hc
    | cons e rest =>
        rw [hdr] at hc
        simp only [List.head?_cons, Option.some.injEq] at hc
        subst hc
        exact dropWhile_cons_not _ _ _ hdr
  · intro c hc
    rcases hmemT2 c hc with rfl | ⟨_, _, hu⟩
    · omega
    · exact hu

/-- Witness for `normalize_title_spec`: the letter `b` of the normalized
form of a concrete title satisfies the allowed-character disjunction. -/
theorem normalize_title_spec_witness :
    isLetterCp 98 = true ∨ isDigitN 98 = true ∨ (98 : Nat) = 32 ∨
      (98 : Nat) = 0xD7 ∨ (98 : Nat) = 0xF7 :=
  (normalize_title_spec (str "Banjir  Jakarta!!")).1 98 (by decide)

/-- Counterexample to C7 as stated: the multiplication sign × (U+00D7) lies
inside the kept range U+00C0–U+024F, so `normalize_title` keeps it although
it is neither a letter, nor a digit, nor a space. -/
theorem normalize_title_cex :
    normalize_title (str "a×b") = str "a×b" ∧
    (0xD7 : Nat) ∈ normalize_title (str "a×b") ∧
    isLetterCp 0xD7 = false ∧ isDigitN 0xD7 = false ∧
    (0xD7 : Nat) ≠ 32 ∧ isSpaceN 0xD7 = false := by decide

/-! ## Ingestion pipeline (`GoogleNewsScraper` in
`src/scraper/google_news_scraper.py`)

A dataframe is a list of rows; the columns relevant to timestamp
validation, deduplication and merging are kept.  `pd.to_datetime(...,
errors="coerce")` is modelled by an abstract parser `parse` returning the
UTC instant, `none` on unparseable input (the WIB-converted sort column is
a fixed monotone shift of the UTC instant, so ordering by it is ordering
by the parsed value). -/

/-- One dataframe row. -/
structure Artikel where
  link : List Nat
  judul : List Nat
  judul_bersih : List Nat
  tanggal_publikasi : List Nat
deriving DecidableEq

/-- The deduplication key `subset=["link", "judul_bersih"]`. -/
def dedupKey (a : Artikel) : List Nat × List Nat := (a.link, a.judul_bersih)

/-- One row of the skipped-articles side log, as written by
`_save_skipped_articles`: the article plus `skip_reason` and `skipped_at`
columns. -/
structure SkippedEntry where
  artikel : Artikel
  skip_reason : List Nat
  skipped_at : List Nat
deriving DecidableEq

/-- `GoogleNewsScraper.process_datetime`: parse the published timestamp of
every row; rows that fail to parse are removed, counted
(`articles_with_invalid_dates`) and appended to the invalid-dates side log
tagged `invalid_dates` with the processing timestamp `now`.  Returns
(kept rows, invalid count, side-log rows). -/
def process_datetime (parse : List Nat → Option Nat) (now : List Nat)
    (df : List Artikel) : List Artikel × Nat × List SkippedEntry :=
  let invalid := df.filter fun a => (parse a.tanggal_publikasi).isNone
  (df.filter fun a => (parse a.tanggal_publikasi).isSome,
   invalid.length,
   invalid.map fun a => ⟨a, str "invalid_dates", now⟩)

/-- `df.drop_duplicates(subset=["link", "judul_bersih"])`: keep the first
row of every key, in row order (`seen` holds the keys already kept). -/
def dedupGo (seen : List (List Nat × List Nat)) :
    List Artikel → List Artikel
  | [] => []
  | a :: t =>
      if dedupKey a ∈ seen then dedupGo seen t
      else a :: dedupGo (dedupKey a :: seen) t

/-- `GoogleNewsScraper.deduplicate`. -/
def deduplicate (df : List Artikel) : List Artikel := dedupGo [] df

/-- The schema back-fill in `merge_with_existing`: when the loaded CSV has
no `judul_bersih` column (`hasKey = false`), recompute it from `judul`. -/
def ensureJudulBersih (hasKey : Bool) (df : List Artikel) : List Artikel :=
  match hasKey with
  | true => df
  | false => df.map fun a => { a with judul_bersih := normalize_title a.judul }

/-- The sort column of `sort_values("datetime_wib", ascending=False)`:
the parsed instant (rows reaching the sort all parse successfully). -/
def sortKey (parse : List Nat → Option Nat) (a : Artikel) : Nat :=
  (parse a.tanggal_publikasi).getD 0

/-- Insertion into a list sorted by descending `sortKey`. -/
def insertArt (parse : List Nat → Option Nat) (a : Artikel) :
    List Artikel → List Artikel
  | [] => [a]
  | b :: t =>
      if sortKey parse b ≤ sortKey parse a then a :: b :: t
      else b :: insertArt parse a t

/-- `df.sort_values("datetime_wib", ascending=False)`. -/
def sortByDateDesc (parse : List Nat → Option Nat) :
    List Artikel → List Artikel
  | [] => []
  | a :: t => insertArt parse a (sortByDateDesc parse t)

/-- `GoogleNewsScraper.merge_with_existing`: back-fill the normalized-title
column of the loaded historical rows if missing, concatenate historical
before new, re-run timestamp validation over the concatenation, drop
duplicate `(link, judul_bersih)` keys keeping the first occurrence, and
sort by event time descending. -/
def merge_with_existing (parse : List Nat → Option Nat) (now : List Nat)
    (hasKey : Bool) (df_old df_new : List Artikel) : List Artikel :=
  sortByDateDesc parse
    (deduplicate
      (process_datetime parse now
        (ensureJudulBersih hasKey df_old ++ df_new)).1)

/-! ### Lemmas about deduplication and sorting -/

/-- Every kept row avoids the seen keys and is the first row of its key. -/
theorem dedupGo_first :
    ∀ (l : List Artikel) (seen : List (List Nat × List Nat)) (a : Artikel),
      a ∈ dedupGo seen l →
        dedupKey a ∉ seen ∧
          (l.filter fun x => decide (dedupKey x = dedupKey a)).head? =
            some a := by
  intro l
  induction l with
  | nil =>
      intro seen a h
      simp [dedupGo] at h
  | cons b t ih =>
      intro seen a h
      unfold dedupGo at h
      split at h
      · rename_i hb
        obtain ⟨hnot, hfirst⟩ := ih seen a h
        have hne : ¬(dedupKey b = dedupKey a) := by
          intro he
          rw [he] at hb
          exact hnot hb
        refine ⟨hnot, ?_⟩
        rw [List.filter_cons]
        simp only [hne, decide_False, Bool.false_eq_true, if_false]
        exact hfirst
      · rename_i hb
        rcases List.mem_cons.1 h with rfl | hrec
        · refine ⟨hb, ?_⟩
          rw [List.filter_cons]
          simp
        · obtain ⟨hnot, hfirst⟩ := ih (dedupKey b :: seen) a hrec
          have hne : ¬(dedupKey b = dedupKey a) := by
            intro he
            exact hnot (by rw [← he]; exact List.mem_cons_self _ _)
          have hnot2 : dedupKey a ∉ seen := fun hm =>
            hnot (List.mem_cons_of_mem _ hm)
          refine ⟨hnot2, ?_⟩
          rw [List.filter_cons]
          simp only [hne, decide_False, Bool.false_eq_true, if_false]
          exact hfirst

/-- Deduplicated rows come from the input. -/
theorem dedupGo_subset :
    ∀ (l : List Artikel) (seen : List (List Nat × List Nat)) (a : Artikel),
      a ∈ dedupGo seen l → a ∈ l := by
  intro l
  induction l with
  | nil =>
      intro seen a h
      simp [dedupGo] at h
  | cons b t ih =>
      intro seen a h
      unfold dedupGo at h
      split at h
      · exact List.mem_cons_of_mem _ (ih _ a h)
      · rcases List.mem_cons.1 h with rfl | hrec
        · exact List.mem_cons_self _ _
        · exact List.mem_cons_of_mem _ (ih _ a hrec)

/-- Deduplicated rows have pairwise distinct keys. -/
theorem dedupGo_pairwise :
    ∀ (l : List Artikel) (seen : List (List Nat × List Nat)),
      (dedupGo seen l).Pairwise fun a b => dedupKey a ≠ dedupKey b := by
  intro l
  induction l with
  | nil =>
      intro seen
      simp [dedupGo]
  | cons b t ih =>
      intro seen
      unfold dedupGo
      split
      · exact ih seen
      · rw [List.pairwise_cons]
        refine ⟨?_, ih _⟩
        intro y hy he
        have := (dedupGo_first t (dedupKey b :: seen) y hy).1
        rw [← he] at this
        exact this (List.mem_cons_self _ _)

/-- A list with pairwise distinct keys, none seen, passes through
unchanged. -/
theorem dedupGo_id :
    ∀ (l : List Artikel) (seen : List (List Nat × List Nat)),
      (l.Pairwise fun a b => dedupKey a ≠ dedupKey b) →
      (∀ a ∈ l, dedupKey a ∉ seen) →
      dedupGo seen l = l := by
  intro l
  induction l with
  | nil =>
      intro seen _ _
      rfl
  | cons b t ih =>
      intro seen hp hseen
      rw [List.pairwise_cons] at hp
      unfold dedupGo
      rw [if_neg (hseen b (List.mem_cons_self _ _))]
      rw [ih (dedupKey b :: seen) hp.2]
      intro a ha
      rw [List.mem_cons]
      push_neg
      exact ⟨fun he => hp.1 a ha he.symm, hseen a (List.mem_cons_of_mem _ ha)⟩

/-- Every input key survives deduplication. -/
theorem dedupGo_complete :
    ∀ (l : List Artikel) (seen : List (List Nat × List Nat)) (a : Artikel),
      a ∈ l → dedupKey a ∉ seen →
        ∃ b ∈ dedupGo seen l, dedupKey b = dedupKey a := by
  intro l
  induction l with
  | nil =>
      intro seen a ha _
      simp at ha
  | cons b t ih =>
      intro seen a ha hnot
      unfold dedupGo
      split
      · rename_i hb
        rcases List.mem_cons.1 ha with rfl | hat
        · exact absurd hb hnot
        · exact ih seen a hat hnot
      · rename_i hb
        rcases List.mem_cons.1 ha with rfl | hat
        · exact ⟨a, List.mem_cons_self _ _, rfl⟩
        · by_cases hk : dedupKey a = dedupKey b
          · exact ⟨b, List.mem_cons_self _ _, hk.symm⟩
          · obtain ⟨c, hc, hck⟩ := ih (dedupKey b :: seen) a hat
              (by
                rw [List.mem_cons]
                push_neg
                exact ⟨hk, hnot⟩)
            exact ⟨c, List.mem_cons_of_mem _ hc, hck⟩

/-- C9: deduplication is idempotent. -/
theorem deduplicate_idem (df : List Artikel) :
    deduplicate (deduplicate df) = deduplicate df := by
  unfold deduplicate
  apply dedupGo_id
  · exact dedupGo_pairwise df []
  · intro a _
    simp

/-- Membership in an insertion. -/
theorem mem_insertArt {parse : List Nat → Option Nat} {a x : Artikel}
    {l : List Artikel} : x ∈ insertArt parse a l ↔ x = a ∨ x ∈ l := by
  induction l with
  | nil => simp [insertArt]
  | cons b t ih =>
      unfold insertArt
      split
      · simp
      · simp only [List.mem_cons, ih]
        tauto

/-- Insertion is a permutation of consing. -/
theorem insertArt_perm (parse : List Nat → Option Nat) (a : Artikel)
    (l : List Artikel) : List.Perm (insertArt parse a l) (a :: l) := by
  induction l with
  | nil => exact List.Perm.refl _
  | cons b t ih =>
      unfold insertArt
      split
      · exact List.Perm.refl _
      · exact (List.Perm.cons b ih).trans (List.Perm.swap a b t)

/-- Sorting permutes the rows. -/
theorem sortByDateDesc_perm (parse : List Nat → Option Nat)
    (l : List Artikel) : List.Perm (sortByDateDesc parse l) l := by
  induction l with
  | nil => exact List.Perm.refl _
  | cons a t ih =>
      exact (insertArt_perm parse a _).trans (List.Perm.cons a ih)

/-- Insertion preserves descending order. -/
theorem sorted_insertArt (parse : List Nat → Option Nat) (a : Artikel)
    (l : List Artikel)
    (h : l.Pairwise fun x y => sortKey parse y ≤ sortKey parse x) :
    (insertArt parse a l).Pairwise
      fun x y => sortKey parse y ≤ sortKey parse x := by
  induction l with
  | nil => simp [insertArt]
  | cons b t ih =>
      rw [List.pairwise_cons] at h
      unfold insertArt
      split
      · rename_i hba
        rw [List.pairwise_cons]
        refine ⟨?_, List.pairwise_cons.2 h⟩
        intro y hy
        rcases List.mem_cons.1 hy with rfl | hyt
        · exact hba
        · exact le_trans (h.1 y hyt) hba
      · rename_i hba
        rw [List.pairwise_cons]
        refine ⟨?_, ih h.2⟩
        intro y hy
        rcases mem_insertArt.1 hy with rfl | hyt
        · omega
        · exact h.1 y hyt

/-- The sort output is sorted by event time descending. -/
theorem sorted_sortByDateDesc (parse : List Nat → Option Nat)
    (l : List Artikel) :
    (sortByDateDesc parse l).Pairwise
      fun x y => sortKey parse y ≤ sortKey parse x := by
  induction l with
  | nil => simp [sortByDateDesc]
  | cons a t ih => exact sorted_insertArt parse a _ ih

/-- C8: timestamp validation removes exactly the rows whose published
timestamp fails to parse, counts them, and appends each of them to the
invalid-dates side log tagged `invalid_dates` with the processing
timestamp; rows whose timestamp parses are kept. -/
theorem process_datetime_spec (parse : List Nat → Option Nat)
    (now : List Nat) (df : List Artikel) (a : Artikel) (ha : a ∈ df) :
    (parse a.tanggal_publikasi = none →
       a ∉ (process_datetime parse now df).1 ∧
       ∃ e ∈ (process_datetime parse now df).2.2,
         e.artikel = a ∧ e.skip_reason = str "invalid_dates" ∧
           e.skipped_at = now) ∧
    ((parse a.tanggal_publikasi).isSome = true →
       a ∈ (process_datetime parse now df).1) ∧
    (process_datetime parse now df).2.1 =
      (df.filter fun x => (parse x.tanggal_publikasi).isNone).length := by
  refine ⟨?_, ?_, rfl⟩
  · intro hnone
    constructor
    · intro hmem
      have hsome := (List.mem_filter.1 hmem).2
      rw [hnone] at hsome
      simp at hsome
    · refine ⟨⟨a, str "invalid_dates", now⟩, ?_, rfl, rfl, rfl⟩
      exact List.mem_map.2
        ⟨a, List.mem_filter.2 ⟨ha, by rw [hnone]; rfl⟩, rfl⟩
  · intro hsome
    exact List.mem_filter.2 ⟨ha, hsome⟩

/-- A timestamp parser for concrete checks: `"bad"` is unparseable,
anything else parses to its length. -/
def parseDemo (s : List Nat) : Option Nat :=
  if s = str "bad" then none else some s.length

/-- A concrete row with an unparseable timestamp. -/
def artikelBad : Artikel :=
  ⟨str "l1", str "Judul Satu", str "judul satu", str "bad"⟩

/-- A concrete row with a parseable timestamp. -/
def artikelGood : Artikel :=
  ⟨str "l2", str "Judul Dua", str "judul dua", str "2024-05-01"⟩

/-- Witness for `process_datetime_spec`: the unparseable row is dropped
from the kept set and logged with reason and timestamp. -/
theorem process_datetime_spec_witness :
    artikelBad ∉
      (process_datetime parseDemo (str "t0") [artikelBad, artikelGood]).1 ∧
    ∃ e ∈ (process_datetime parseDemo (str "t0")
        [artikelBad, artikelGood]).2.2,
      e.artikel = artikelBad ∧ e.skip_reason = str "invalid_dates" ∧
        e.skipped_at = str "t0" :=
  (process_datetime_spec parseDemo (str "t0") [artikelBad, artikelGood]
    artikelBad (by decide)).1 (by decide)

/-- C1: the merged output has pairwise distinct `(link, judul_bersih)`
keys, is sorted by event time descending, consists exactly of the first
occurrences (in historical-before-new concatenation order, after timestamp
validation) of each surviving key, and loses no key; the back-fill of a
missing normalized-title column is the per-row recomputation from the
title. -/
theorem merge_with_existing_spec (parse : List Nat → Option Nat)
    (now : List Nat) (hasKey : Bool) (df_old df_new : List Artikel) :
    (merge_with_existing parse now hasKey df_old df_new).Pairwise
        (fun a b => dedupKey a ≠ dedupKey b) ∧
    (merge_with_existing parse now hasKey df_old df_new).Pairwise
        (fun a b => sortKey parse b ≤ sortKey parse a) ∧
    (∀ a ∈ merge_with_existing parse now hasKey df_old df_new,
       ((process_datetime parse now
           (ensureJudulBersih hasKey df_old ++ df_new)).1.filter
         fun x => decide (dedupKey x = dedupKey a)).head? = some a) ∧
    (∀ a ∈ (process_datetime parse now
        (ensureJudulBersih hasKey df_old ++ df_new)).1,
       ∃ b ∈ merge_with_existing parse now hasKey df_old df_new,
         dedupKey b = dedupKey a) ∧
    merge_with_existing parse now false df_old df_new =
      merge_with_existing parse now true
        (df_old.map fun a => { a with judul_bersih := normalize_title a.judul })
        df_new := by
  refine ⟨?_, ?_, ?_, ?_, rfl⟩
  · have hperm := sortByDateDesc_perm parse
      (deduplicate (process_datetime parse now
        (ensureJudulBersih hasKey df_old ++ df_new)).1)
    exact (hperm.pairwise_iff (fun h => Ne.symm h)).2 (dedupGo_pairwise _ [])
  · exact sorted_sortByDateDesc parse _
  · intro a ha
    have hd : a ∈ deduplicate (process_datetime parse now
        (ensureJudulBersih hasKey df_old ++ df_new)).1 :=
      (sortByDateDesc_perm parse _).mem_iff.1 ha
    exact (dedupGo_first _ [] a hd).2
  · intro a ha
    obtain ⟨b, hb, hk⟩ := dedupGo_complete _ [] a ha (by simp)
    exact ⟨b, (sortByDateDesc_perm parse _).mem_iff.2 hb, hk⟩

/-- Witness for `merge_with_existing_spec`: in a concrete merge the kept
row is the first occurrence of its key. -/
theorem merge_with_existing_spec_witness :
    ((process_datetime parseDemo (str "t0")
        (ensureJudulBersih true [artikelGood] ++
          [artikelBad, artikelGood])).1.filter
      fun x => decide (dedupKey x = dedupKey artikelGood)).head? =
        some artikelGood :=
  (merge_with_existing_spec parseDemo (str "t0") true [artikelGood]
    [artikelBad, artikelGood]).2.2.1 artikelGood (by decide)

/-! ## Disaster-type classification (`DisasterFilter.get_disaster_type`) -/

/-- The category → keyword table of `get_disaster_type`, in declared order
(Python 3.7+ dicts iterate in insertion order). -/
def disaster_categories : List (String × List (List Nat)) :=
  [("Banjir", [str "banjir", str "banjir bandang", str "banjir rob"]),
   ("Gempa Bumi", [str "gempa bumi", str "gempa", str "lindu"]),
   ("Tsunami", [str "tsunami"]),
   ("Tanah Longsor", [str "tanah longsor", str "longsor"]),
   ("Kebakaran", [str "kebakaran hutan", str "kebakaran lahan",
     str "kebakaran rumah", str "kebakaran permukiman"]),
   ("Angin Kencang", [str "angin puting beliung", str "angin kencang",
     str "puting beliung"]),
   ("Erupsi Gunung Api", [str "erupsi", str "gunung meletus",
     str "erupsi gunung api"]),
   ("Kekeringan", [str "kekeringan"]),
   ("Epidemi", [str "wabah", str "epidemi", str "pandemi"]),
   ("Kecelakaan", [str "kecelakaan kapal", str "kecelakaan laut",
     str "kecelakaan pesawat"]),
   ("Konflik Sosial", [str "konflik sosial", str "bentrok warga"])]

/-- Some keyword of the category occurs as a substring of the text. -/
def catHit (text : List Nat) (entry : String × List (List Nat)) : Bool :=
  entry.2.any fun kw => containsSub kw text

/-- The first-match loop over the category table. -/
def firstCat : List (String × List (List Nat)) → List Nat → String
  | [], _ => "Lainnya"
  | e :: rest, text => if catHit text e then e.1 else firstCat rest text

/-- `DisasterFilter.get_disaster_type`. -/
def get_disaster_type (judul ringkasan : List Nat) : String :=
  firstCat disaster_categories (filterText judul ringkasan)

/-- When no table entry has a hit, the loop returns `"Lainnya"`. -/
theorem firstCat_none :
    ∀ (tbl : List (String × List (List Nat))) (text : List Nat),
      (∀ e ∈ tbl, catHit text e = false) → firstCat tbl text = "Lainnya" := by
  intro tbl
  induction tbl with
  | nil =>
      intro text _
      rfl
  | cons e rest ih =>
      intro text h
      unfold firstCat
      rw [h e (List.mem_cons_self _ _)]
      simp only [Bool.false_eq_true, if_false]
      exact ih text fun x hx => h x (List.mem_cons_of_mem _ hx)

/-- The loop returns the earliest hit entry of the table. -/
theorem firstCat_at :
    ∀ (tbl : List (String × List (List Nat))) (text : List Nat) (i : Nat)
      (h : i < tbl.length),
      catHit text (tbl.get ⟨i, h⟩) = true →
      (∀ j (hj : j < i), catHit text (tbl.get ⟨j, Nat.lt_trans hj h⟩) = false) →
      firstCat tbl text = (tbl.get ⟨i, h⟩).1 := by
  intro tbl
  induction tbl with
  | nil =>
      intro text i h
      exact absurd h (by simp)
  | cons e rest ih =>
      intro text i h hhit hbefore
      unfold firstCat
      cases i with
      | zero =>
          rw [show (e :: rest).get ⟨0, h⟩ = e from rfl] at hhit ⊢
          rw [hhit]
          simp
      | succ k =>
          have h0 : catHit text e = false := by
            have := hbefore 0 (Nat.succ_pos k)
            simpa using this
          rw [h0]
          simp only [Bool.false_eq_true, if_false]
          have hk : k < rest.length := Nat.lt_of_succ_lt_succ h
          rw [show (e :: rest).get ⟨k + 1, h⟩ = rest.get ⟨k, hk⟩ from rfl]
          exact ih text k hk
            (by rw [show rest.get ⟨k, hk⟩ = (e :: rest).get ⟨k + 1, h⟩ from rfl]
                exact hhit)
            (fun j hj => by
              have := hbefore (j + 1) (Nat.succ_lt_succ hj)
              simpa using this)

/-- C6: `get_disaster_type` walks the category table in declared order and
returns the name of the first category with a keyword substring hit;
with no hit anywhere it returns `"Lainnya"`; so a text hitting several
categories is classified by the earliest-declared one. -/
theorem get_disaster_type_spec (judul ringkasan : List Nat) :
    ((∀ e ∈ disaster_categories,
        catHit (filterText judul ringkasan) e = false) →
      get_disaster_type judul ringkasan = "Lainnya") ∧
    (∀ i (h : i < disaster_categories.length),
      catHit (filterText judul ringkasan) (disaster_categories.get ⟨i, h⟩) =
        true →
      (∀ j (hj : j < i),
        catHit (filterText judul ringkasan)
          (disaster_categories.get ⟨j, Nat.lt_trans hj h⟩) = false) →
      get_disaster_type judul ringkasan =
        (disaster_categories.get ⟨i, h⟩).1) := by
  constructor
  · intro h
    exact firstCat_none disaster_categories _ h
  · intro i h hhit hbefore
    exact firstCat_at disaster_categories _ i h hhit hbefore

/-- Witness for `get_disaster_type_spec`: a text hitting both the flood and
earthquake vocabularies is classified `"Banjir"`, the earliest declared
category. -/
theorem get_disaster_type_spec_witness :
    get_disaster_type (str "banjir dan gempa melanda") (str "") = "Banjir" :=
  (get_disaster_type_spec (str "banjir dan gempa melanda") (str "")).2 0
    (by decide) (by decide) (fun j hj => absurd hj (Nat.not_lt_zero j))

end DisasterMonitor
